import Mathlib

/-!
Shallow embedding of the interpolation-and-transform kernel of
`src/BFieldCache.cxx` (`BFieldCache::getB` and its three variants
`getBVec`, `getBAutoVec`, `getBBothVec`).

Arithmetic is modelled over `ℚ` (exact arithmetic; the claims under study are
about the mathematical function the code computes, with floating point treated
as evaluation order only).  The C math-library functions `cos`, `sin` and the
constant `2 * M_PI` are external to the repository; they enter the embedding
as explicit parameters `cosFn`, `sinFn`, `twoPi` of each kernel function.
`CxxUtils::vec<double, 2>` (src/vec.h, GCC vector-extension semantics:
elementwise arithmetic, scalar broadcast) is modelled as a pair `ℚ × ℚ` with
elementwise operations.
-/

/-- The per-cell cache object read by `BFieldCache::getB`.  The class header
is not part of the sources under study; the fields listed here are exactly
the members the kernel in `src/BFieldCache.cxx` reads: bin lower bounds,
reciprocal bin widths, the multiplicative scale, and the 8 corner samples of
each of the three cylindrical field components `m_field[i][0..7]`
(i = 0 Bz, 1 Br, 2 Bphi). -/
structure BFieldCache where
  m_zmin : ℚ
  m_invz : ℚ
  m_rmin : ℚ
  m_invr : ℚ
  m_phimin : ℚ
  m_invphi : ℚ
  m_scale : ℚ
  m_field : Fin 3 → Fin 8 → ℚ

namespace BFieldKernel

/-- Fractional z coordinate inside the bin: `fz = (z - m_zmin) * m_invz`
(src/BFieldCache.cxx line 33). -/
def fzOf (cache : BFieldCache) (z : ℚ) : ℚ :=
  (z - cache.m_zmin) * cache.m_invz

/-- Fractional r coordinate inside the bin: `fr = (r - m_rmin) * m_invr`
(src/BFieldCache.cxx line 35). -/
def frOf (cache : BFieldCache) (r : ℚ) : ℚ :=
  (r - cache.m_rmin) * cache.m_invr

/-- Fractional phi coordinate inside the bin:
`fphi = (phi - m_phimin) * m_invphi` (src/BFieldCache.cxx line 37). -/
def fphiOf (cache : BFieldCache) (phi : ℚ) : ℚ :=
  (phi - cache.m_phimin) * cache.m_invphi

/-- The single phi wrap performed at the top of every kernel variant
(src/BFieldCache.cxx lines 29-31): `if (phi < m_phimin) phi += 2 * M_PI`.
`twoPi` models the external constant `2 * M_PI`. -/
def wrapPhi (twoPi : ℚ) (cache : BFieldCache) (phi : ℚ) : ℚ :=
  if phi < cache.m_phimin then phi + twoPi else phi

/-- The scalar trilinear interpolation of component `i`, exactly the nested
sum of src/BFieldCache.cxx lines 42-48 (shared textually by `getB` and
`getBAutoVec`); `phi` is the already-wrapped azimuth. -/
def Bzrphi (cache : BFieldCache) (z r phi : ℚ) (i : Fin 3) : ℚ :=
  let fz := fzOf cache z
  let gz := 1 - fz
  let fr := frOf cache r
  let gr := 1 - fr
  let fphi := fphiOf cache phi
  let gphi := 1 - fphi
  let field := cache.m_field i
  cache.m_scale *
    (gz * (gr * (gphi * field 0 + fphi * field 1) +
           fr * (gphi * field 2 + fphi * field 3)) +
     fz * (gr * (gphi * field 4 + fphi * field 5) +
           fr * (gphi * field 6 + fphi * field 7)))

/-- Elementwise product of two 2-lane vectors (GCC vector `*`). -/
def vmul (a b : ℚ × ℚ) : ℚ × ℚ := (a.1 * b.1, a.2 * b.2)

/-- Product of a 2-lane vector with a broadcast scalar on the right. -/
def vsmulR (a : ℚ × ℚ) (t : ℚ) : ℚ × ℚ := (a.1 * t, a.2 * t)

/-- Product of a broadcast scalar on the left with a 2-lane vector. -/
def vsmulL (t : ℚ) (a : ℚ × ℚ) : ℚ × ℚ := (t * a.1, t * a.2)

/-- Elementwise sum of two 2-lane vectors (GCC vector `+`). -/
def vadd (a b : ℚ × ℚ) : ℚ × ℚ := (a.1 + b.1, a.2 + b.2)

/-- The two-lane SIMD trilinear interpolation of component `i`, exactly the
lane structure of src/BFieldCache.cxx lines 142-167 (shared textually by
`getBVec` and `getBBothVec`): pairs of phi-adjacent samples in one vector,
multiplied by the `{gphi, fphi}` coefficient vector and the broadcast r and z
weights, then a horizontal add of the two lanes. -/
def BzrphiVec (cache : BFieldCache) (z r phi : ℚ) (i : Fin 3) : ℚ :=
  let fz := fzOf cache z
  let gz := 1 - fz
  let fr := frOf cache r
  let gr := 1 - fr
  let fphi := fphiOf cache phi
  let gphi := 1 - fphi
  let interpCoeffphi1 : ℚ × ℚ := (gphi, fphi)
  let interpCoeffphi2 : ℚ × ℚ := (gphi, fphi)
  let interpCoeffphi3 : ℚ × ℚ := (gphi, fphi)
  let interpCoeffphi4 : ℚ × ℚ := (gphi, fphi)
  let field1 : ℚ × ℚ := (cache.m_field i 0, cache.m_field i 1)
  let field2 : ℚ × ℚ := (cache.m_field i 2, cache.m_field i 3)
  let field3 : ℚ × ℚ := (cache.m_field i 4, cache.m_field i 5)
  let field4 : ℚ × ℚ := (cache.m_field i 6, cache.m_field i 7)
  let interp1 := vsmulR (vmul field1 interpCoeffphi1) gr
  let interp2 := vsmulR (vmul field2 interpCoeffphi2) fr
  let interp3 := vsmulR (vmul field3 interpCoeffphi3) gr
  let interp4 := vsmulR (vmul field4 interpCoeffphi4) fr
  let interp := vadd (vsmulL gz (vadd interp1 interp2))
                     (vsmulL fz (vadd interp3 interp4))
  cache.m_scale * (interp.1 + interp.2)

/-- Cylindrical-to-Cartesian rotation of the interpolated triple
(src/BFieldCache.cxx lines 62-64): `B[0] = Br*c - Bphi*s`,
`B[1] = Br*s + Bphi*c`, `B[2] = Bz`, with `Bcyl 0 = Bz`, `Bcyl 1 = Br`,
`Bcyl 2 = Bphi`. -/
def rotateToCart (c s : ℚ) (Bcyl : Fin 3 → ℚ) : Fin 3 → ℚ :=
  ![Bcyl 1 * c - Bcyl 2 * s, Bcyl 1 * s + Bcyl 2 * c, Bcyl 0]

/-- Cylindrical partial derivative `dBdz[j]` of src/BFieldCache.cxx
lines 78-81: `sz * (gr*(gphi*(f4-f0) + fphi*(f5-f1)) + fr*(gphi*(f6-f2) +
fphi*(f7-f3)))` with `sz = m_scale * m_invz`; `phi` already wrapped. -/
def dBdzArr (cache : BFieldCache) (z r phi : ℚ) (j : Fin 3) : ℚ :=
  let fr := frOf cache r
  let gr := 1 - fr
  let fphi := fphiOf cache phi
  let gphi := 1 - fphi
  let field := cache.m_field j
  let sz := cache.m_scale * cache.m_invz
  sz * (gr * (gphi * (field 4 - field 0) + fphi * (field 5 - field 1)) +
        fr * (gphi * (field 6 - field 2) + fphi * (field 7 - field 3)))

/-- Cylindrical partial derivative `dBdr[j]` of src/BFieldCache.cxx
lines 82-85, with `sr = m_scale * m_invr`. -/
def dBdrArr (cache : BFieldCache) (z r phi : ℚ) (j : Fin 3) : ℚ :=
  let fz := fzOf cache z
  let gz := 1 - fz
  let fphi := fphiOf cache phi
  let gphi := 1 - fphi
  let field := cache.m_field j
  let sr := cache.m_scale * cache.m_invr
  sr * (gz * (gphi * (field 2 - field 0) + fphi * (field 3 - field 1)) +
        fz * (gphi * (field 6 - field 4) + fphi * (field 7 - field 5)))

/-- Cylindrical partial derivative `dBdphi[j]` of src/BFieldCache.cxx
lines 86-88, with `sphi = m_scale * m_invphi`. -/
def dBdphiArr (cache : BFieldCache) (z r phi : ℚ) (j : Fin 3) : ℚ :=
  let fz := fzOf cache z
  let gz := 1 - fz
  let fr := frOf cache r
  let gr := 1 - fr
  let field := cache.m_field j
  let sphi := cache.m_scale * cache.m_invphi
  sphi * (gz * (gr * (field 1 - field 0) + fr * (field 3 - field 2)) +
          fz * (gr * (field 5 - field 4) + fr * (field 7 - field 6)))

/-- The nine Jacobian entries written in the derivative block, as a function
of the ingredients the code computes there (src/BFieldCache.cxx lines 91-111):
`cc = c*c`, `cs = c*s`, `ss = s*s`, the `invr`-scaled products, and the nine
row-major entries `deriv[0..8]`. -/
def derivTemplate (invr c s : ℚ) (dBdz dBdr dBdphi B : Fin 3 → ℚ) :
    Fin 9 → ℚ :=
  let cc := c * c
  let cs := c * s
  let ss := s * s
  let ccinvr := cc * invr
  let csinvr := cs * invr
  let ssinvr := ss * invr
  let sinvr := s * invr
  let cinvr := c * invr
  ![cc * dBdr 1 - cs * dBdr 2 - csinvr * dBdphi 1 + ssinvr * dBdphi 2 +
      sinvr * B 1,
    cs * dBdr 1 - ss * dBdr 2 + ccinvr * dBdphi 1 - csinvr * dBdphi 2 -
      cinvr * B 1,
    c * dBdz 1 - s * dBdz 2,
    cs * dBdr 1 + cc * dBdr 2 - ssinvr * dBdphi 1 - csinvr * dBdphi 2 -
      sinvr * B 0,
    ss * dBdr 1 + cs * dBdr 2 + csinvr * dBdphi 1 + ccinvr * dBdphi 2 +
      cinvr * B 0,
    s * dBdz 1 + c * dBdz 2,
    c * dBdr 0 - sinvr * dBdphi 0,
    s * dBdr 0 + cinvr * dBdphi 0,
    dBdz 0]

/-- The derivative block of src/BFieldCache.cxx lines 67-112 for an
already-wrapped `phi`: compute the cylindrical partials and fill the nine
row-major Cartesian Jacobian entries. -/
def derivOut (cache : BFieldCache) (z r phi invr c s : ℚ) (B : Fin 3 → ℚ) :
    Fin 9 → ℚ :=
  derivTemplate invr c s (dBdzArr cache z r phi) (dBdrArr cache z r phi)
    (dBdphiArr cache z r phi) B

/-- Embedding of `BFieldCache::getB` (src/BFieldCache.cxx lines 16-113), the
scalar reference: wrap phi once, trilinearly interpolate the three cylindrical
components, rotate to Cartesian with `c = x/r, s = y/r` when `r > 0` and the
`cos(m_phimin), sin(m_phimin)` fallback (with `invr = 0`) otherwise, and,
when `deriv` is non-null (`wantDeriv = true`), fill the nine Jacobian
entries.  Returns the contents of the output buffers `B` and `deriv`. -/
def getB (cosFn sinFn : ℚ → ℚ) (twoPi : ℚ) (cache : BFieldCache)
    (xyz : Fin 3 → ℚ) (r phi : ℚ) (wantDeriv : Bool) :
    (Fin 3 → ℚ) × Option (Fin 9 → ℚ) :=
  let x := xyz 0
  let y := xyz 1
  let z := xyz 2
  let phiw := wrapPhi twoPi cache phi
  let Bc : Fin 3 → ℚ := fun i => Bzrphi cache z r phiw i
  let invr := if 0 < r then 1 / r else 0
  let c := if 0 < r then x * (1 / r) else cosFn cache.m_phimin
  let s := if 0 < r then y * (1 / r) else sinFn cache.m_phimin
  let B := rotateToCart c s Bc
  (B, if wantDeriv then some (derivOut cache z r phiw invr c s B) else none)

/-- Embedding of `BFieldCache::getBVec` (src/BFieldCache.cxx lines 116-233):
identical to `getB` except that the trilinear blend is evaluated with the
explicit two-lane SIMD grouping `BzrphiVec`. -/
def getBVec (cosFn sinFn : ℚ → ℚ) (twoPi : ℚ) (cache : BFieldCache)
    (xyz : Fin 3 → ℚ) (r phi : ℚ) (wantDeriv : Bool) :
    (Fin 3 → ℚ) × Option (Fin 9 → ℚ) :=
  let x := xyz 0
  let y := xyz 1
  let z := xyz 2
  let phiw := wrapPhi twoPi cache phi
  let Bc : Fin 3 → ℚ := fun i => BzrphiVec cache z r phiw i
  let invr := if 0 < r then 1 / r else 0
  let c := if 0 < r then x * (1 / r) else cosFn cache.m_phimin
  let s := if 0 < r then y * (1 / r) else sinFn cache.m_phimin
  let B := rotateToCart c s Bc
  (B, if wantDeriv then some (derivOut cache z r phiw invr c s B) else none)

/-- Embedding of `BFieldCache::getBAutoVec` (src/BFieldCache.cxx lines
236-333): the body is textually identical to `getB` (the C++ differs only in
the `ATH_ENABLE_FUNCTION_VECTORIZATION` compiler attribute). -/
def getBAutoVec (cosFn sinFn : ℚ → ℚ) (twoPi : ℚ) (cache : BFieldCache)
    (xyz : Fin 3 → ℚ) (r phi : ℚ) (wantDeriv : Bool) :
    (Fin 3 → ℚ) × Option (Fin 9 → ℚ) :=
  let x := xyz 0
  let y := xyz 1
  let z := xyz 2
  let phiw := wrapPhi twoPi cache phi
  let Bc : Fin 3 → ℚ := fun i => Bzrphi cache z r phiw i
  let invr := if 0 < r then 1 / r else 0
  let c := if 0 < r then x * (1 / r) else cosFn cache.m_phimin
  let s := if 0 < r then y * (1 / r) else sinFn cache.m_phimin
  let B := rotateToCart c s Bc
  (B, if wantDeriv then some (derivOut cache z r phiw invr c s B) else none)

/-- Embedding of `BFieldCache::getBBothVec` (src/BFieldCache.cxx lines
336-453): the body is textually identical to `getBVec` (the C++ differs only
in the compiler attribute). -/
def getBBothVec (cosFn sinFn : ℚ → ℚ) (twoPi : ℚ) (cache : BFieldCache)
    (xyz : Fin 3 → ℚ) (r phi : ℚ) (wantDeriv : Bool) :
    (Fin 3 → ℚ) × Option (Fin 9 → ℚ) :=
  let x := xyz 0
  let y := xyz 1
  let z := xyz 2
  let phiw := wrapPhi twoPi cache phi
  let Bc : Fin 3 → ℚ := fun i => BzrphiVec cache z r phiw i
  let invr := if 0 < r then 1 / r else 0
  let c := if 0 < r then x * (1 / r) else cosFn cache.m_phimin
  let s := if 0 < r then y * (1 / r) else sinFn cache.m_phimin
  let B := rotateToCart c s Bc
  (B, if wantDeriv then some (derivOut cache z r phiw invr c s B) else none)

/-- Numeric value of a corner bit: 1 for a set bit, 0 for a clear bit. -/
def bq (b : Bool) : ℚ := if b then 1 else 0

/-- The corner-index convention of the claim and spec: the corner with bit
pattern `(zbit, rbit, phibit)` is sample index `4*zbit + 2*rbit + phibit`. -/
def cornerIdx (zb rb pb : Bool) : Fin 8 :=
  ⟨4 * zb.toNat + 2 * rb.toNat + pb.toNat, by
    revert zb rb pb; decide⟩

/-- The trilinear weight of corner `k` for fractional coordinates
`(u, v, w)` along `(z, r, phi)`: the product of (`u` if the corner's z-bit is
1 else `1-u`), and likewise for r and phi, with corner index
`k = 4*zbit + 2*rbit + phibit`. -/
def cornerWeight (u v w : ℚ) (k : Fin 8) : ℚ :=
  (if k.val / 4 = 1 then u else 1 - u) *
  (if k.val / 2 % 2 = 1 then v else 1 - v) *
  (if k.val % 2 = 1 then w else 1 - w)

/-- A trivariate function that is affine in its first argument, the other two
held fixed. -/
def AffineIn1 (G : ℚ → ℚ → ℚ → ℚ) : Prop :=
  ∀ v w : ℚ, ∃ a b : ℚ, ∀ t : ℚ, G t v w = a + b * t

/-- A trivariate function that is affine in its second argument. -/
def AffineIn2 (G : ℚ → ℚ → ℚ → ℚ) : Prop :=
  ∀ u w : ℚ, ∃ a b : ℚ, ∀ t : ℚ, G u t w = a + b * t

/-- A trivariate function that is affine in its third argument. -/
def AffineIn3 (G : ℚ → ℚ → ℚ → ℚ) : Prop :=
  ∀ u v : ℚ, ∃ a b : ℚ, ∀ t : ℚ, G u v t = a + b * t

/-- A trivariate function that is affine along each axis holding the other
two fixed. -/
def TriAffine (G : ℚ → ℚ → ℚ → ℚ) : Prop :=
  AffineIn1 G ∧ AffineIn2 G ∧ AffineIn3 G

/-- A 3x3 rational matrix with explicitly named entries, row-major. -/
structure Mat3 where
  m00 : ℚ
  m01 : ℚ
  m02 : ℚ
  m10 : ℚ
  m11 : ℚ
  m12 : ℚ
  m20 : ℚ
  m21 : ℚ
  m22 : ℚ

/-- Product of two 3x3 matrices. -/
def mul3 (A B : Mat3) : Mat3 :=
  ⟨A.m00 * B.m00 + A.m01 * B.m10 + A.m02 * B.m20,
   A.m00 * B.m01 + A.m01 * B.m11 + A.m02 * B.m21,
   A.m00 * B.m02 + A.m01 * B.m12 + A.m02 * B.m22,
   A.m10 * B.m00 + A.m11 * B.m10 + A.m12 * B.m20,
   A.m10 * B.m01 + A.m11 * B.m11 + A.m12 * B.m21,
   A.m10 * B.m02 + A.m11 * B.m12 + A.m12 * B.m22,
   A.m20 * B.m00 + A.m21 * B.m10 + A.m22 * B.m20,
   A.m20 * B.m01 + A.m21 * B.m11 + A.m22 * B.m21,
   A.m20 * B.m02 + A.m21 * B.m12 + A.m22 * B.m22⟩

/-- The nine `deriv` entries viewed as the row-major 3x3 matrix
`d(Bx,By,Bz)/d(x,y,z)`: row `i` column `j` is `deriv[3*i + j]`. -/
def derivAsMat (D : Fin 9 → ℚ) : Mat3 :=
  ⟨D 0, D 1, D 2, D 3, D 4, D 5, D 6, D 7, D 8⟩

/-- Jacobian of the cylindrical parametrisation `(r, phi, z) ↦ (x, y, z)` at
a point with direction cosines `c = cos phi`, `s = sin phi`:
`x = r*cos phi, y = r*sin phi`, so the columns are
`d/dr = (c, s, 0)`, `d/dphi = (-r*s, r*c, 0)`, `d/dz = (0, 0, 1)`. -/
def polarJacobian (r c s : ℚ) : Mat3 :=
  ⟨c, -(r * s), 0,
   s, r * c, 0,
   0, 0, 1⟩

/-- Jacobian of `(r, phi, z) ↦ (Bx, By, Bz)` for the rotated cylindrical
field `Bx = Br*cos phi - Bphi*sin phi`, `By = Br*sin phi + Bphi*cos phi`,
`Bz = Bz`, written by the product rule with `(cos)' = -sin`, `(sin)' = cos`
evaluated at the point (`c = cos phi`, `s = sin phi`): `Bcyl` is the
cylindrical triple `(Bz, Br, Bphi)` and `dz, dr, dphi` its partial
derivatives with respect to `z, r, phi`.  Rows are the Cartesian components
`(Bx, By, Bz)`, columns the derivatives along `(r, phi, z)`. -/
def cylFieldJacobian (c s : ℚ) (Bcyl dz dr dphi : Fin 3 → ℚ) : Mat3 :=
  ⟨c * dr 1 - s * dr 2,
   (dphi 1 * c + Bcyl 1 * (-s)) - (dphi 2 * s + Bcyl 2 * c),
   c * dz 1 - s * dz 2,
   s * dr 1 + c * dr 2,
   (dphi 1 * s + Bcyl 1 * c) + (dphi 2 * c + Bcyl 2 * (-s)),
   s * dz 1 + c * dz 2,
   dr 0, dphi 0, dz 0⟩

/-- Division that fails (returns `none`) on a zero divisor, used to record
exactly where the source divides. -/
def divStrict (a b : ℚ) : Option ℚ :=
  if b = 0 then none else some (a / b)

/-- Variant of `getB` in which the one division the source performs
(`invr = 1.0 / r`, executed only under the guard `r > 0.0`) is replaced by
failing division; it returns `none` exactly when the kernel would divide by
zero. -/
def getBStrictDiv (cosFn sinFn : ℚ → ℚ) (twoPi : ℚ) (cache : BFieldCache)
    (xyz : Fin 3 → ℚ) (r phi : ℚ) (wantDeriv : Bool) :
    Option ((Fin 3 → ℚ) × Option (Fin 9 → ℚ)) :=
  let z := xyz 2
  let phiw := wrapPhi twoPi cache phi
  let Bc : Fin 3 → ℚ := fun i => Bzrphi cache z r phiw i
  let csi : Option (ℚ × ℚ × ℚ) :=
    if 0 < r then
      match divStrict 1 r with
      | none => none
      | some invr => some (invr, xyz 0 * invr, xyz 1 * invr)
    else
      some (0, cosFn cache.m_phimin, sinFn cache.m_phimin)
  match csi with
  | none => none
  | some (invr, c, s) =>
    let B := rotateToCart c s Bc
    some (B, if wantDeriv then some (derivOut cache z r phiw invr c s B)
             else none)

/-- Variant of `getBVec` with failing division, analogous to
`getBStrictDiv`; the SIMD blend contains no division. -/
def getBVecStrictDiv (cosFn sinFn : ℚ → ℚ) (twoPi : ℚ) (cache : BFieldCache)
    (xyz : Fin 3 → ℚ) (r phi : ℚ) (wantDeriv : Bool) :
    Option ((Fin 3 → ℚ) × Option (Fin 9 → ℚ)) :=
  let z := xyz 2
  let phiw := wrapPhi twoPi cache phi
  let Bc : Fin 3 → ℚ := fun i => BzrphiVec cache z r phiw i
  let csi : Option (ℚ × ℚ × ℚ) :=
    if 0 < r then
      match divStrict 1 r with
      | none => none
      | some invr => some (invr, xyz 0 * invr, xyz 1 * invr)
    else
      some (0, cosFn cache.m_phimin, sinFn cache.m_phimin)
  match csi with
  | none => none
  | some (invr, c, s) =>
    let B := rotateToCart c s Bc
    some (B, if wantDeriv then some (derivOut cache z r phiw invr c s B)
             else none)

/-- State-passing model of a `getB` call: the method is `const` on the cache
and writes only the caller-supplied buffers, so a call maps the cache and the
initial contents `B0`, `D0` of the output buffers to the cache and the final
buffer contents.  `B[0..2]` is always written; the nine `deriv` entries are
written only when `deriv` is non-null (`wantDeriv = true`), otherwise the
`deriv` buffer keeps its initial contents. -/
def getBWrite (cosFn sinFn : ℚ → ℚ) (twoPi : ℚ) (cache : BFieldCache)
    (xyz : Fin 3 → ℚ) (r phi : ℚ) (wantDeriv : Bool)
    (B0 : Fin 3 → ℚ) (D0 : Fin 9 → ℚ) :
    BFieldCache × (Fin 3 → ℚ) × (Fin 9 → ℚ) :=
  let out := getB cosFn sinFn twoPi cache xyz r phi wantDeriv
  (cache, out.1, match out.2 with
                 | some D => D
                 | none => D0)

/-- Concrete cache used to evaluate hypothesis-bearing theorems:
`m_phimin = 10`, unit reciprocals and scale, zero samples. -/
def cacheA : BFieldCache :=
  ⟨0, 1, 0, 1, 10, 1, 1, fun _ _ => 0⟩

/-- Concrete cache with corner sample `k` equal to `k` and scale 3. -/
def cacheB : BFieldCache :=
  ⟨0, 1, 0, 1, 0, 1, 3, fun _ k => (k.val : ℚ)⟩

/-- Concrete cache with distinct corner samples for every component. -/
def cacheC : BFieldCache :=
  ⟨0, 1, 0, 1, 0, 1, 1, fun i k => (i.val * 8 + k.val : ℚ)⟩

/-- Concrete cache whose 8 samples of every component all equal 5. -/
def cacheD : BFieldCache :=
  ⟨0, 1, 0, 1, 0, 1, 2, fun _ _ => 5⟩

/-- Constant trivariate function with value 5. -/
def constG : ℚ → ℚ → ℚ → ℚ := fun _ _ _ => 5

/-- Zero function standing in for the external `cos`/`sin` in concrete
evaluations that never reach the degenerate-axis branch. -/
def zeroFn : ℚ → ℚ := fun _ => 0

/-- Lane-by-lane the SIMD blend computes the same rational number as the
scalar nested blend (in exact arithmetic the reassociation is invisible). -/
theorem BzrphiVec_eq_Bzrphi (cache : BFieldCache) (z r phi : ℚ) (i : Fin 3) :
    BzrphiVec cache z r phi i = Bzrphi cache z r phi i := by
  simp only [BzrphiVec, Bzrphi, vmul, vsmulR, vsmulL, vadd]
  ring

/-- An affine function of the first argument interpolates linearly between
its values at 0 and 1. -/
theorem affineIn1_blend (G : ℚ → ℚ → ℚ → ℚ) (h : AffineIn1 G)
    (t v w : ℚ) : G t v w = (1 - t) * G 0 v w + t * G 1 v w := by
  obtain ⟨a, b, hab⟩ := h v w
  rw [hab t, hab 0, hab 1]; ring

/-- An affine function of the second argument interpolates linearly between
its values at 0 and 1. -/
theorem affineIn2_blend (G : ℚ → ℚ → ℚ → ℚ) (h : AffineIn2 G)
    (u t w : ℚ) : G u t w = (1 - t) * G u 0 w + t * G u 1 w := by
  obtain ⟨a, b, hab⟩ := h u w
  rw [hab t, hab 0, hab 1]; ring

/-- An affine function of the third argument interpolates linearly between
its values at 0 and 1. -/
theorem affineIn3_blend (G : ℚ → ℚ → ℚ → ℚ) (h : AffineIn3 G)
    (u v t : ℚ) : G u v t = (1 - t) * G u v 0 + t * G u v 1 := by
  obtain ⟨a, b, hab⟩ := h u v
  rw [hab t, hab 0, hab 1]; ring

/-- Weight of corner 0 = (z-bit 0, r-bit 0, phi-bit 0). -/
theorem cornerWeight_k0 (u v w : ℚ) :
    cornerWeight u v w 0 = (1 - u) * (1 - v) * (1 - w) := rfl

/-- Weight of corner 1 = (z-bit 0, r-bit 0, phi-bit 1). -/
theorem cornerWeight_k1 (u v w : ℚ) :
    cornerWeight u v w 1 = (1 - u) * (1 - v) * w := rfl

/-- Weight of corner 2 = (z-bit 0, r-bit 1, phi-bit 0). -/
theorem cornerWeight_k2 (u v w : ℚ) :
    cornerWeight u v w 2 = (1 - u) * v * (1 - w) := rfl

/-- Weight of corner 3 = (z-bit 0, r-bit 1, phi-bit 1). -/
theorem cornerWeight_k3 (u v w : ℚ) :
    cornerWeight u v w 3 = (1 - u) * v * w := rfl

/-- Weight of corner 4 = (z-bit 1, r-bit 0, phi-bit 0). -/
theorem cornerWeight_k4 (u v w : ℚ) :
    cornerWeight u v w 4 = u * (1 - v) * (1 - w) := rfl

/-- Weight of corner 5 = (z-bit 1, r-bit 0, phi-bit 1). -/
theorem cornerWeight_k5 (u v w : ℚ) :
    cornerWeight u v w 5 = u * (1 - v) * w := rfl

/-- Weight of corner 6 = (z-bit 1, r-bit 1, phi-bit 0). -/
theorem cornerWeight_k6 (u v w : ℚ) :
    cornerWeight u v w 6 = u * v * (1 - w) := rfl

/-- Weight of corner 7 = (z-bit 1, r-bit 1, phi-bit 1). -/
theorem cornerWeight_k7 (u v w : ℚ) :
    cornerWeight u v w 7 = u * v * w := rfl

/-- Entry `deriv[0]` of the derivative block. -/
theorem derivTemplate_k0 (invr c s : ℚ) (dz dr dphi B : Fin 3 → ℚ) :
    derivTemplate invr c s dz dr dphi B 0 =
      c * c * dr 1 - c * s * dr 2 - c * s * invr * dphi 1 +
        s * s * invr * dphi 2 + s * invr * B 1 := rfl

/-- Entry `deriv[1]` of the derivative block. -/
theorem derivTemplate_k1 (invr c s : ℚ) (dz dr dphi B : Fin 3 → ℚ) :
    derivTemplate invr c s dz dr dphi B 1 =
      c * s * dr 1 - s * s * dr 2 + c * c * invr * dphi 1 -
        c * s * invr * dphi 2 - c * invr * B 1 := rfl

/-- Entry `deriv[2]` of the derivative block. -/
theorem derivTemplate_k2 (invr c s : ℚ) (dz dr dphi B : Fin 3 → ℚ) :
    derivTemplate invr c s dz dr dphi B 2 = c * dz 1 - s * dz 2 := rfl

/-- Entry `deriv[3]` of the derivative block. -/
theorem derivTemplate_k3 (invr c s : ℚ) (dz dr dphi B : Fin 3 → ℚ) :
    derivTemplate invr c s dz dr dphi B 3 =
      c * s * dr 1 + c * c * dr 2 - s * s * invr * dphi 1 -
        c * s * invr * dphi 2 - s * invr * B 0 := rfl

/-- Entry `deriv[4]` of the derivative block. -/
theorem derivTemplate_k4 (invr c s : ℚ) (dz dr dphi B : Fin 3 → ℚ) :
    derivTemplate invr c s dz dr dphi B 4 =
      s * s * dr 1 + c * s * dr 2 + c * s * invr * dphi 1 +
        c * c * invr * dphi 2 + c * invr * B 0 := rfl

/-- Entry `deriv[5]` of the derivative block. -/
theorem derivTemplate_k5 (invr c s : ℚ) (dz dr dphi B : Fin 3 → ℚ) :
    derivTemplate invr c s dz dr dphi B 5 = s * dz 1 + c * dz 2 := rfl

/-- Entry `deriv[6]` of the derivative block. -/
theorem derivTemplate_k6 (invr c s : ℚ) (dz dr dphi B : Fin 3 → ℚ) :
    derivTemplate invr c s dz dr dphi B 6 =
      c * dr 0 - s * invr * dphi 0 := rfl

/-- Entry `deriv[7]` of the derivative block. -/
theorem derivTemplate_k7 (invr c s : ℚ) (dz dr dphi B : Fin 3 → ℚ) :
    derivTemplate invr c s dz dr dphi B 7 =
      s * dr 0 + c * invr * dphi 0 := rfl

/-- Entry `deriv[8]` of the derivative block. -/
theorem derivTemplate_k8 (invr c s : ℚ) (dz dr dphi B : Fin 3 → ℚ) :
    derivTemplate invr c s dz dr dphi B 8 = dz 0 := rfl

/-- Component 0 (Bx) of the rotated field. -/
theorem rotateToCart_k0 (c s : ℚ) (Bcyl : Fin 3 → ℚ) :
    rotateToCart c s Bcyl 0 = Bcyl 1 * c - Bcyl 2 * s := rfl

/-- Component 1 (By) of the rotated field. -/
theorem rotateToCart_k1 (c s : ℚ) (Bcyl : Fin 3 → ℚ) :
    rotateToCart c s Bcyl 1 = Bcyl 1 * s + Bcyl 2 * c := rfl

/-- Component 2 (Bz) of the rotated field. -/
theorem rotateToCart_k2 (c s : ℚ) (Bcyl : Fin 3 → ℚ) :
    rotateToCart c s Bcyl 2 = Bcyl 0 := rfl

/-- Claim C1: each cylindrical component computed by the kernel is `scale`
times the trilinear blend of the 8 corner samples, the weight of corner
`k = 4*zbit + 2*rbit + phibit` being the product of (`fz` if the z-bit is 1
else `gz = 1-fz`) and likewise for r and phi; and this blend is the value of
every interpolant through the 8 corner values that is affine along each axis
holding the other two fixed (the unique such interpolant). -/
theorem claim1_trilinear (cache : BFieldCache) (z r phi : ℚ) (i : Fin 3) :
    Bzrphi cache z r phi i =
      cache.m_scale * ∑ k : Fin 8,
        cornerWeight (fzOf cache z) (frOf cache r) (fphiOf cache phi) k *
          cache.m_field i k
    ∧ ∀ G : ℚ → ℚ → ℚ → ℚ, TriAffine G →
        (∀ zb rb pb : Bool,
          G (bq zb) (bq rb) (bq pb) = cache.m_field i (cornerIdx zb rb pb)) →
        Bzrphi cache z r phi i =
          cache.m_scale *
            G (fzOf cache z) (frOf cache r) (fphiOf cache phi) := by
  constructor
  · rw [Fin.sum_univ_eight]
    simp only [cornerWeight_k0, cornerWeight_k1, cornerWeight_k2,
      cornerWeight_k3, cornerWeight_k4, cornerWeight_k5, cornerWeight_k6,
      cornerWeight_k7, Bzrphi]
    ring
  · intro G hG hc
    obtain ⟨h1, h2, h3⟩ := hG
    have c0 : G 0 0 0 = cache.m_field i 0 := hc false false false
    have c1 : G 0 0 1 = cache.m_field i 1 := hc false false true
    have c2 : G 0 1 0 = cache.m_field i 2 := hc false true false
    have c3 : G 0 1 1 = cache.m_field i 3 := hc false true true
    have c4 : G 1 0 0 = cache.m_field i 4 := hc true false false
    have c5 : G 1 0 1 = cache.m_field i 5 := hc true false true
    have c6 : G 1 1 0 = cache.m_field i 6 := hc true true false
    have c7 : G 1 1 1 = cache.m_field i 7 := hc true true true
    rw [affineIn1_blend G h1 (fzOf cache z) (frOf cache r) (fphiOf cache phi),
      affineIn2_blend G h2 0 (frOf cache r) (fphiOf cache phi),
      affineIn2_blend G h2 1 (frOf cache r) (fphiOf cache phi),
      affineIn3_blend G h3 0 0 (fphiOf cache phi),
      affineIn3_blend G h3 0 1 (fphiOf cache phi),
      affineIn3_blend G h3 1 0 (fphiOf cache phi),
      affineIn3_blend G h3 1 1 (fphiOf cache phi),
      c0, c1, c2, c3, c4, c5, c6, c7]
    simp only [Bzrphi]

/-- Claim C1 witness: the constant function 5 is tri-affine and matches the
corners of `cacheD`, so the theorem evaluates the blend through it. -/
theorem claim1_trilinear_witness :
    Bzrphi cacheD 1 1 1 0 =
      cacheD.m_scale *
        constG (fzOf cacheD 1) (frOf cacheD 1) (fphiOf cacheD 1) :=
  (claim1_trilinear cacheD 1 1 1 0).2 constG
    ⟨fun _ _ => ⟨5, 0, fun t => by norm_num [constG]⟩,
     fun _ _ => ⟨5, 0, fun t => by norm_num [constG]⟩,
     fun _ _ => ⟨5, 0, fun t => by norm_num [constG]⟩⟩
    (fun _ _ _ => rfl)

/-- Claim C2: the four implementation variants `getB`, `getBVec`,
`getBAutoVec`, `getBBothVec` compute the same mathematical function: for
every cache, query point and derivative mode, their field outputs and, when
requested, their nine derivative outputs coincide in exact arithmetic. -/
theorem claim2_variants_agree (cosFn sinFn : ℚ → ℚ) (twoPi : ℚ)
    (cache : BFieldCache) (xyz : Fin 3 → ℚ) (r phi : ℚ) (wantDeriv : Bool) :
    getBVec cosFn sinFn twoPi cache xyz r phi wantDeriv =
      getB cosFn sinFn twoPi cache xyz r phi wantDeriv
    ∧ getBAutoVec cosFn sinFn twoPi cache xyz r phi wantDeriv =
      getB cosFn sinFn twoPi cache xyz r phi wantDeriv
    ∧ getBBothVec cosFn sinFn twoPi cache xyz r phi wantDeriv =
      getB cosFn sinFn twoPi cache xyz r phi wantDeriv := by
  refine ⟨?_, rfl, ?_⟩ <;>
    · simp only [getBVec, getBBothVec, getB, BzrphiVec_eq_Bzrphi]

/-- Claim C3: for `r > 0` (and a consistent point, `x^2 + y^2 = r^2`) the
nine `deriv` entries are the row-major Cartesian Jacobian obtained by the
chain rule through `(x,y,z) -> (r,phi,z)`: the kernel returns the template at
`invr = 1/r, c = x/r, s = y/r`; composing that matrix with the Jacobian of
the polar parametrisation recovers exactly the `(r,phi,z)`-Jacobian of the
rotated trilinear field (product rule included), both generically whenever
`r*invr = 1` and `c*c + s*s = 1` and at the kernel's own values; and the
entries match the documented closed forms, e.g.
`deriv[0] = c*c*dBdr[1] - c*s*dBdr[2] - (c*s/r)*dBdphi[1] +
(s*s/r)*dBdphi[2] + (s/r)*B[1]`, `deriv[2] = c*dBdz[1] - s*dBdz[2]`,
`deriv[8] = dBdz[0]`. -/
theorem claim3_jacobian_chain (cosFn sinFn : ℚ → ℚ) (twoPi : ℚ)
    (cache : BFieldCache) (xyz : Fin 3 → ℚ) (r phi : ℚ)
    (hr : 0 < r) (hxy : xyz 0 ^ 2 + xyz 1 ^ 2 = r ^ 2) :
    ((getB cosFn sinFn twoPi cache xyz r phi true).2 =
      some (derivTemplate (1 / r) (xyz 0 / r) (xyz 1 / r)
        (dBdzArr cache (xyz 2) r (wrapPhi twoPi cache phi))
        (dBdrArr cache (xyz 2) r (wrapPhi twoPi cache phi))
        (dBdphiArr cache (xyz 2) r (wrapPhi twoPi cache phi))
        (rotateToCart (xyz 0 / r) (xyz 1 / r)
          (fun i => Bzrphi cache (xyz 2) r (wrapPhi twoPi cache phi) i))))
    ∧ (∀ (invr c s : ℚ) (Bcyl dz dr dphi : Fin 3 → ℚ),
        r * invr = 1 → c * c + s * s = 1 →
        mul3 (derivAsMat (derivTemplate invr c s dz dr dphi
            (rotateToCart c s Bcyl))) (polarJacobian r c s) =
          cylFieldJacobian c s Bcyl dz dr dphi)
    ∧ mul3 (derivAsMat (derivTemplate (1 / r) (xyz 0 / r) (xyz 1 / r)
          (dBdzArr cache (xyz 2) r (wrapPhi twoPi cache phi))
          (dBdrArr cache (xyz 2) r (wrapPhi twoPi cache phi))
          (dBdphiArr cache (xyz 2) r (wrapPhi twoPi cache phi))
          (rotateToCart (xyz 0 / r) (xyz 1 / r)
            (fun i => Bzrphi cache (xyz 2) r (wrapPhi twoPi cache phi) i))))
        (polarJacobian r (xyz 0 / r) (xyz 1 / r)) =
      cylFieldJacobian (xyz 0 / r) (xyz 1 / r)
        (fun i => Bzrphi cache (xyz 2) r (wrapPhi twoPi cache phi) i)
        (dBdzArr cache (xyz 2) r (wrapPhi twoPi cache phi))
        (dBdrArr cache (xyz 2) r (wrapPhi twoPi cache phi))
        (dBdphiArr cache (xyz 2) r (wrapPhi twoPi cache phi))
    ∧ (∀ (invr c s : ℚ) (dz dr dphi B : Fin 3 → ℚ), r * invr = 1 →
        derivTemplate invr c s dz dr dphi B 0 =
          c * c * dr 1 - c * s * dr 2 - c * s / r * dphi 1 +
            s * s / r * dphi 2 + s / r * B 1
        ∧ derivTemplate invr c s dz dr dphi B 2 = c * dz 1 - s * dz 2
        ∧ derivTemplate invr c s dz dr dphi B 8 = dz 0) := by
  have hr0 : r ≠ 0 := hr.ne'
  have hgen : ∀ (invr c s : ℚ) (Bcyl dz dr dphi : Fin 3 → ℚ),
      r * invr = 1 → c * c + s * s = 1 →
      mul3 (derivAsMat (derivTemplate invr c s dz dr dphi
          (rotateToCart c s Bcyl))) (polarJacobian r c s) =
        cylFieldJacobian c s Bcyl dz dr dphi := by
    intro invr c s Bcyl dz dr dphi hinv hcs
    simp only [mul3, derivAsMat, polarJacobian, cylFieldJacobian,
      derivTemplate_k0, derivTemplate_k1, derivTemplate_k2, derivTemplate_k3,
      derivTemplate_k4, derivTemplate_k5, derivTemplate_k6, derivTemplate_k7,
      derivTemplate_k8, rotateToCart_k0, rotateToCart_k1, rotateToCart_k2,
      Mat3.mk.injEq]
    refine ⟨?_, ?_, ?_, ?_, ?_, ?_, ?_, ?_, ?_⟩
    · linear_combination (c * dr 1 - s * dr 2) * hcs
    · linear_combination
        ((c * c + s * s) *
          (c * dphi 1 - s * dphi 2 - s * Bcyl 1 - c * Bcyl 2)) * hinv +
        (c * dphi 1 - s * dphi 2 - s * Bcyl 1 - c * Bcyl 2) * hcs
    · ring
    · linear_combination (s * dr 1 + c * dr 2) * hcs
    · linear_combination
        ((c * c + s * s) *
          (s * dphi 1 + c * dphi 2 + c * Bcyl 1 - s * Bcyl 2)) * hinv +
        (s * dphi 1 + c * dphi 2 + c * Bcyl 1 - s * Bcyl 2) * hcs
    · ring
    · linear_combination dr 0 * hcs
    · linear_combination ((c * c + s * s) * dphi 0) * hinv + dphi 0 * hcs
    · ring
  refine ⟨?_, hgen, ?_, ?_⟩
  · simp only [getB, derivOut, if_pos hr, mul_one_div, if_true]
  · refine hgen (1 / r) (xyz 0 / r) (xyz 1 / r) _ _ _ _ ?_ ?_
    · field_simp
    · field_simp
      linear_combination hxy
  · intro invr c s dz dr dphi B hinv
    have hinvr : invr = 1 / r := by
      rw [eq_div_iff hr0]
      linear_combination hinv
    subst hinvr
    refine ⟨?_, rfl, rfl⟩
    rw [derivTemplate_k0]
    ring

/-- Claim C3 witness: a concrete consistent query with `x = 3, y = 4,
r = 5`. -/
theorem claim3_jacobian_chain_witness :
    (getB zeroFn zeroFn 6 cacheC ![3, 4, 7] 5 1 true).2 =
      some (derivTemplate (1 / 5) (![(3 : ℚ), 4, 7] 0 / 5)
        (![(3 : ℚ), 4, 7] 1 / 5)
        (dBdzArr cacheC (![(3 : ℚ), 4, 7] 2) 5 (wrapPhi 6 cacheC 1))
        (dBdrArr cacheC (![(3 : ℚ), 4, 7] 2) 5 (wrapPhi 6 cacheC 1))
        (dBdphiArr cacheC (![(3 : ℚ), 4, 7] 2) 5 (wrapPhi 6 cacheC 1))
        (rotateToCart (![(3 : ℚ), 4, 7] 0 / 5) (![(3 : ℚ), 4, 7] 1 / 5)
          (fun i => Bzrphi cacheC (![(3 : ℚ), 4, 7] 2) 5
            (wrapPhi 6 cacheC 1) i))) :=
  (claim3_jacobian_chain zeroFn zeroFn 6 cacheC ![3, 4, 7] 5 1
    (by norm_num) (by norm_num)).1

/-- Claim C4: the cylindrical partials the derivative block computes are the
exact analytic derivatives of the step-2 trilinear interpolant: shifting any
one of `z`, `r`, `phi` by `t` changes the interpolated value by exactly
`t` times the corresponding `dBd*` quantity (first-order exactness, with the
slope independent of the shifted coordinate, which for a function affine in
that coordinate is precisely its partial derivative), and each `dBd*` equals
`scale * invAxis` times the difference of the trilinear blends over the two
faces of the cell orthogonal to that axis. -/
theorem claim4_cyl_partials (cache : BFieldCache) (z r phi : ℚ)
    (j : Fin 3) :
    (∀ t : ℚ, Bzrphi cache (z + t) r phi j =
      Bzrphi cache z r phi j + t * dBdzArr cache z r phi j)
    ∧ (∀ t : ℚ, Bzrphi cache z (r + t) phi j =
      Bzrphi cache z r phi j + t * dBdrArr cache z r phi j)
    ∧ (∀ t : ℚ, Bzrphi cache z r (phi + t) j =
      Bzrphi cache z r phi j + t * dBdphiArr cache z r phi j)
    ∧ dBdzArr cache z r phi j = cache.m_scale * cache.m_invz *
      (((1 - frOf cache r) * ((1 - fphiOf cache phi) * cache.m_field j 4 +
          fphiOf cache phi * cache.m_field j 5) +
        frOf cache r * ((1 - fphiOf cache phi) * cache.m_field j 6 +
          fphiOf cache phi * cache.m_field j 7)) -
       ((1 - frOf cache r) * ((1 - fphiOf cache phi) * cache.m_field j 0 +
          fphiOf cache phi * cache.m_field j 1) +
        frOf cache r * ((1 - fphiOf cache phi) * cache.m_field j 2 +
          fphiOf cache phi * cache.m_field j 3)))
    ∧ dBdrArr cache z r phi j = cache.m_scale * cache.m_invr *
      (((1 - fzOf cache z) * ((1 - fphiOf cache phi) * cache.m_field j 2 +
          fphiOf cache phi * cache.m_field j 3) +
        fzOf cache z * ((1 - fphiOf cache phi) * cache.m_field j 6 +
          fphiOf cache phi * cache.m_field j 7)) -
       ((1 - fzOf cache z) * ((1 - fphiOf cache phi) * cache.m_field j 0 +
          fphiOf cache phi * cache.m_field j 1) +
        fzOf cache z * ((1 - fphiOf cache phi) * cache.m_field j 4 +
          fphiOf cache phi * cache.m_field j 5)))
    ∧ dBdphiArr cache z r phi j = cache.m_scale * cache.m_invphi *
      (((1 - fzOf cache z) * ((1 - frOf cache r) * cache.m_field j 1 +
          frOf cache r * cache.m_field j 3) +
        fzOf cache z * ((1 - frOf cache r) * cache.m_field j 5 +
          frOf cache r * cache.m_field j 7)) -
       ((1 - fzOf cache z) * ((1 - frOf cache r) * cache.m_field j 0 +
          frOf cache r * cache.m_field j 2) +
        fzOf cache z * ((1 - frOf cache r) * cache.m_field j 4 +
          frOf cache r * cache.m_field j 6))) := by
  refine ⟨fun t => ?_, fun t => ?_, fun t => ?_, ?_, ?_, ?_⟩ <;>
    · simp only [Bzrphi, dBdzArr, dBdrArr, dBdphiArr, fzOf, frOf, fphiOf]
      ring

/-- Claim C5: for `r ≥ 0` the Cartesian output is the rotation
`B[0] = Br*c - Bphi*s`, `B[1] = Br*s + Bphi*c`, `B[2] = Bz` of the
interpolated cylindrical triple, with `c = x/r, s = y/r` when `r > 0` and
the defined fallback `c = cos(phimin), s = sin(phimin)` when `r = 0`. -/
theorem claim5_rotation (cosFn sinFn : ℚ → ℚ) (twoPi : ℚ)
    (cache : BFieldCache) (xyz : Fin 3 → ℚ) (r phi : ℚ) (wantDeriv : Bool)
    (h : 0 ≤ r) :
    (getB cosFn sinFn twoPi cache xyz r phi wantDeriv).1 =
      (fun c s =>
        ![Bzrphi cache (xyz 2) r (wrapPhi twoPi cache phi) 1 * c -
            Bzrphi cache (xyz 2) r (wrapPhi twoPi cache phi) 2 * s,
          Bzrphi cache (xyz 2) r (wrapPhi twoPi cache phi) 1 * s +
            Bzrphi cache (xyz 2) r (wrapPhi twoPi cache phi) 2 * c,
          Bzrphi cache (xyz 2) r (wrapPhi twoPi cache phi) 0])
      (if 0 < r then xyz 0 / r else cosFn cache.m_phimin)
      (if 0 < r then xyz 1 / r else sinFn cache.m_phimin) := by
  funext k
  simp only [getB, rotateToCart]
  split_ifs with hr0 <;> fin_cases k <;> simp <;> ring

/-- Claim C5 witness: a concrete evaluation with `r = 2 > 0`. -/
theorem claim5_rotation_witness :
    (getB zeroFn zeroFn 7 cacheC ![3, 4, 1] 2 1 true).1 =
      (fun c s =>
        ![Bzrphi cacheC (![(3 : ℚ), 4, 1] 2) 2 (wrapPhi 7 cacheC 1) 1 * c -
            Bzrphi cacheC (![(3 : ℚ), 4, 1] 2) 2 (wrapPhi 7 cacheC 1) 2 * s,
          Bzrphi cacheC (![(3 : ℚ), 4, 1] 2) 2 (wrapPhi 7 cacheC 1) 1 * s +
            Bzrphi cacheC (![(3 : ℚ), 4, 1] 2) 2 (wrapPhi 7 cacheC 1) 2 * c,
          Bzrphi cacheC (![(3 : ℚ), 4, 1] 2) 2 (wrapPhi 7 cacheC 1) 0])
      (if (0 : ℚ) < 2 then ![(3 : ℚ), 4, 1] 0 / 2 else zeroFn cacheC.m_phimin)
      (if (0 : ℚ) < 2 then ![(3 : ℚ), 4, 1] 1 / 2 else
        zeroFn cacheC.m_phimin) :=
  claim5_rotation zeroFn zeroFn 7 cacheC ![3, 4, 1] 2 1 true (by norm_num)

/-- Claim C6: the kernel is total.  Replacing the single division the source
performs (`invr = 1.0 / r`, reached only under the guard `r > 0.0`) with a
division that fails on a zero divisor never fails: for every input and both
derivative modes the strict-division kernel returns `some` of the ordinary
result, for the scalar form and the SIMD form (and hence for the textually
identical `getBAutoVec` and `getBBothVec`); out-of-range fractional
coordinates are not special-cased anywhere, so every input extrapolates to a
defined value. -/
theorem claim6_total (cosFn sinFn : ℚ → ℚ) (twoPi : ℚ)
    (cache : BFieldCache) (xyz : Fin 3 → ℚ) (r phi : ℚ) (wantDeriv : Bool) :
    getBStrictDiv cosFn sinFn twoPi cache xyz r phi wantDeriv =
      some (getB cosFn sinFn twoPi cache xyz r phi wantDeriv)
    ∧ getBVecStrictDiv cosFn sinFn twoPi cache xyz r phi wantDeriv =
      some (getBVec cosFn sinFn twoPi cache xyz r phi wantDeriv)
    ∧ getBStrictDiv cosFn sinFn twoPi cache xyz r phi wantDeriv =
      some (getBAutoVec cosFn sinFn twoPi cache xyz r phi wantDeriv)
    ∧ getBVecStrictDiv cosFn sinFn twoPi cache xyz r phi wantDeriv =
      some (getBBothVec cosFn sinFn twoPi cache xyz r phi wantDeriv) := by
  have h1 : getBStrictDiv cosFn sinFn twoPi cache xyz r phi wantDeriv =
      some (getB cosFn sinFn twoPi cache xyz r phi wantDeriv) := by
    by_cases hr : 0 < r
    · simp [getBStrictDiv, getB, divStrict, hr, hr.ne']
    · simp [getBStrictDiv, getB, hr]
  have h2 : getBVecStrictDiv cosFn sinFn twoPi cache xyz r phi wantDeriv =
      some (getBVec cosFn sinFn twoPi cache xyz r phi wantDeriv) := by
    by_cases hr : 0 < r
    · simp [getBVecStrictDiv, getBVec, divStrict, hr, hr.ne']
    · simp [getBVecStrictDiv, getBVec, hr]
  exact ⟨h1, h2, h1, h2⟩

/-- Claim C7: the kernel applies at most one `+2*pi` correction.  When
`phi < phimin` (and one wrap suffices, i.e. `phimin ≤ phi + 2*pi`) the result
equals the result at `phi + 2*pi`; when `phi ≥ phimin` the supplied `phi` is
used unchanged; and for `phi` within one wrap of the bin the fractional phi
coordinate is computed from a value in `[phimin, phimin + 2*pi)`. -/
theorem claim7_phi_wrap (cosFn sinFn : ℚ → ℚ) (twoPi : ℚ)
    (cache : BFieldCache) (xyz : Fin 3 → ℚ) (r phi : ℚ) (wantDeriv : Bool) :
    (phi < cache.m_phimin → cache.m_phimin ≤ phi + twoPi →
      getB cosFn sinFn twoPi cache xyz r phi wantDeriv =
        getB cosFn sinFn twoPi cache xyz r (phi + twoPi) wantDeriv)
    ∧ (cache.m_phimin ≤ phi → wrapPhi twoPi cache phi = phi)
    ∧ (cache.m_phimin - twoPi ≤ phi → phi < cache.m_phimin + twoPi →
        cache.m_phimin ≤ wrapPhi twoPi cache phi ∧
          wrapPhi twoPi cache phi < cache.m_phimin + twoPi) := by
  refine ⟨fun h1 h2 => ?_, fun h => ?_, fun h1 h2 => ?_⟩
  · simp only [getB, wrapPhi, if_pos h1, if_neg (not_lt.mpr h2)]
  · simp only [wrapPhi, if_neg (not_lt.mpr h)]
  · unfold wrapPhi
    split_ifs with hlt
    · constructor <;> linarith
    · constructor <;> linarith [not_lt.mp hlt]

/-- Claim C7 witness: with `phimin = 10`, `twoPi = 6`, the result at
`phi = 7 < 10` equals the result at `phi = 13`. -/
theorem claim7_phi_wrap_witness :
    getB zeroFn zeroFn 6 cacheA ![0, 0, 0] 1 7 false =
      getB zeroFn zeroFn 6 cacheA ![0, 0, 0] 1 13 false := by
  have h := (claim7_phi_wrap zeroFn zeroFn 6 cacheA ![0, 0, 0] 1 7 false).1
    (by norm_num [cacheA]) (by norm_num [cacheA])
  norm_num at h
  exact h

/-- Claim C8: corner exactness.  Whenever the fractional coordinates are
exactly the bits `(zb, rb, pb)` of a corner, the interpolated cylindrical
component equals `scale * m_field[i][4*zb + 2*rb + pb]`; in particular at
`z = zmin, r = rmin, phi = phimin` (where `fz = fr = fphi = 0` and the phi
wrap does not fire) it equals `scale * m_field[i][0]`. -/
theorem claim8_corner_exact (twoPi : ℚ) (cache : BFieldCache) (i : Fin 3)
    (z r phi : ℚ) (zb rb pb : Bool)
    (hz : fzOf cache z = bq zb) (hr : frOf cache r = bq rb)
    (hp : fphiOf cache phi = bq pb) :
    Bzrphi cache z r phi i =
      cache.m_scale * cache.m_field i (cornerIdx zb rb pb)
    ∧ Bzrphi cache cache.m_zmin cache.m_rmin cache.m_phimin i =
      cache.m_scale * cache.m_field i 0
    ∧ wrapPhi twoPi cache cache.m_phimin = cache.m_phimin := by
  refine ⟨?_, ?_, ?_⟩
  · simp only [Bzrphi]
    rw [hz, hr, hp]
    cases zb <;> cases rb <;> cases pb <;> simp [bq, cornerIdx]
  · simp only [Bzrphi, fzOf, frOf, fphiOf]
    ring
  · simp [wrapPhi]

/-- Claim C8 witness: with unit bin reciprocals and `zmin = rmin = phimin
= 0`, the point `z = 1, r = 0, phi = 1` has fractional coordinates
`(1, 0, 1)`, hitting corner `4*1 + 2*0 + 1 = 5`. -/
theorem claim8_corner_exact_witness :
    Bzrphi cacheB 1 0 1 0 =
      cacheB.m_scale * cacheB.m_field 0 (cornerIdx true false true)
    ∧ Bzrphi cacheB cacheB.m_zmin cacheB.m_rmin cacheB.m_phimin 0 =
      cacheB.m_scale * cacheB.m_field 0 0
    ∧ wrapPhi 6 cacheB cacheB.m_phimin = cacheB.m_phimin :=
  claim8_corner_exact 6 cacheB 0 1 0 1 true false true
    (by norm_num [fzOf, cacheB, bq]) (by norm_num [frOf, cacheB, bq])
    (by norm_num [fphiOf, cacheB, bq])

/-- Claim C9: for every `r ≤ 0` (not only `r = 0`) with derivatives
requested, the kernel sets `invr = 0` instead of `1/r`, so the returned
Jacobian is the code's chain-rule template evaluated at `invr = 0` with the
fallback direction cosines, and every `1/r`-carrying term is dropped: the
`dBdphi` contributions and the `B`-dependent terms disappear from entries
0, 1, 3, 4, 6, 7 while entries 2, 5, 8 are unchanged; the result is a plain
polynomial in the finite inputs, hence finite. -/
theorem claim9_axis_invr_zero (cosFn sinFn : ℚ → ℚ) (twoPi : ℚ)
    (cache : BFieldCache) (xyz : Fin 3 → ℚ) (r phi : ℚ) (h : r ≤ 0) :
    ((getB cosFn sinFn twoPi cache xyz r phi true).2 =
      some (derivTemplate 0 (cosFn cache.m_phimin) (sinFn cache.m_phimin)
        (dBdzArr cache (xyz 2) r (wrapPhi twoPi cache phi))
        (dBdrArr cache (xyz 2) r (wrapPhi twoPi cache phi))
        (dBdphiArr cache (xyz 2) r (wrapPhi twoPi cache phi))
        (getB cosFn sinFn twoPi cache xyz r phi true).1))
    ∧ ∀ (c s : ℚ) (dz dr dphi B : Fin 3 → ℚ),
        derivTemplate 0 c s dz dr dphi B 0 = c * c * dr 1 - c * s * dr 2
        ∧ derivTemplate 0 c s dz dr dphi B 1 = c * s * dr 1 - s * s * dr 2
        ∧ derivTemplate 0 c s dz dr dphi B 2 = c * dz 1 - s * dz 2
        ∧ derivTemplate 0 c s dz dr dphi B 3 = c * s * dr 1 + c * c * dr 2
        ∧ derivTemplate 0 c s dz dr dphi B 4 = s * s * dr 1 + c * s * dr 2
        ∧ derivTemplate 0 c s dz dr dphi B 5 = s * dz 1 + c * dz 2
        ∧ derivTemplate 0 c s dz dr dphi B 6 = c * dr 0
        ∧ derivTemplate 0 c s dz dr dphi B 7 = s * dr 0
        ∧ derivTemplate 0 c s dz dr dphi B 8 = dz 0 := by
  constructor
  · simp only [getB, derivOut, if_neg (not_lt.mpr h), if_true]
  · intro c s dz dr dphi B
    refine ⟨?_, ?_, ?_, ?_, ?_, ?_, ?_, ?_, ?_⟩ <;>
      simp only [derivTemplate_k0, derivTemplate_k1, derivTemplate_k2,
        derivTemplate_k3, derivTemplate_k4, derivTemplate_k5,
        derivTemplate_k6, derivTemplate_k7, derivTemplate_k8] <;>
      ring

/-- Claim C9 witness: a concrete evaluation at `r = 0`. -/
theorem claim9_axis_invr_zero_witness :
    ((getB zeroFn zeroFn 6 cacheC ![1, 2, 3] 0 1 true).2 =
      some (derivTemplate 0 (zeroFn cacheC.m_phimin) (zeroFn cacheC.m_phimin)
        (dBdzArr cacheC (![(1 : ℚ), 2, 3] 2) 0 (wrapPhi 6 cacheC 1))
        (dBdrArr cacheC (![(1 : ℚ), 2, 3] 2) 0 (wrapPhi 6 cacheC 1))
        (dBdphiArr cacheC (![(1 : ℚ), 2, 3] 2) 0 (wrapPhi 6 cacheC 1))
        (getB zeroFn zeroFn 6 cacheC ![1, 2, 3] 0 1 true).1)) :=
  (claim9_axis_invr_zero zeroFn zeroFn 6 cacheC ![1, 2, 3] 0 1
    (by norm_num)).1

/-- Claim C10: the Cartesian field output is identical whether or not
derivatives are requested; with `deriv` null nothing is written to the
derivative buffer and no derivative output is produced; and in both modes
the call leaves the cache unchanged (it only reads it). -/
theorem claim10_frame (cosFn sinFn : ℚ → ℚ) (twoPi : ℚ)
    (cache : BFieldCache) (xyz : Fin 3 → ℚ) (r phi : ℚ)
    (B0 : Fin 3 → ℚ) (D0 : Fin 9 → ℚ) :
    getBWrite cosFn sinFn twoPi cache xyz r phi false B0 D0 =
      (cache, (getB cosFn sinFn twoPi cache xyz r phi true).1, D0)
    ∧ (getBWrite cosFn sinFn twoPi cache xyz r phi true B0 D0).1 = cache
    ∧ (getB cosFn sinFn twoPi cache xyz r phi false).2 = none
    ∧ (getB cosFn sinFn twoPi cache xyz r phi false).1 =
      (getB cosFn sinFn twoPi cache xyz r phi true).1 :=
  ⟨rfl, rfl, rfl, rfl⟩

end BFieldKernel
